import Mathlib

/-!
Verification of the note-taking application's core logic (note entity,
JSON-file storage, sidebar rename state machine, root controller) as a
shallow embedding of the Rust sources (`note.rs`, `storage.rs`,
`views/sidebar.rs`, `app.rs`).

Timestamps (`chrono::DateTime<Local>`) are modelled as integers carrying
the instant; `DateTime` equality and ordering compare instants, so `Int`
with its order is a faithful abstraction. Strings are Lean `String`s:
Rust `str::chars` corresponds to `String.data`, and Rust `str::len`
(UTF-8 byte length) corresponds to `String.utf8ByteSize`.
-/

/-- Timestamp instant, standing for `chrono::DateTime<Local>`. -/
abbrev Timestamp := Int

/-- The note record from `note.rs` (`struct Note`). -/
structure Note where
  id : String
  title : String
  content : String
  created_at : Timestamp
  updated_at : Timestamp
deriving DecidableEq, Repr

/-- `Note::new` from `note.rs`. The UUID-v4 generator and the clock are
nondeterministic inputs, so they are passed as parameters `id` and `now`;
the body fills the fields exactly as the Rust constructor does. -/
def Note.new (id : String) (now : Timestamp) : Note :=
  { id := id
    title := "新建笔记"
    content := ""
    created_at := now
    updated_at := now }

/-- `Note::preview` from `note.rs`: empty content yields the placeholder;
otherwise the first 50 characters are taken (`chars().take(50)`), and the
ellipsis is appended when the UTF-8 byte length (`content.len()`) exceeds
50. -/
def Note.preview (n : Note) : String :=
  if n.content.isEmpty then
    "无内容"
  else
    let p : String := String.mk (n.content.data.take 50)
    if n.content.utf8ByteSize > 50 then p ++ "..." else p

example : (Note.new "x" 3).title = "新建笔记" := by decide

example :
    ({ id := "i", title := "t", content := "hello", created_at := 0, updated_at := 0 : Note}).preview
      = "hello" := by decide

example :
    ({ id := "i", title := "t", content := "αααααααααααααααααααααααααα",
       created_at := 0, updated_at := 0 : Note}).preview
      = "αααααααααααααααααααααααααα" ++ "..." := by decide

/-!
## Storage model (`storage.rs`)

The data directory is a flat list of directory entries. Each entry has a
file name, a content, and a readability flag (whether `read_to_string`
would succeed on it). File contents that hold well-formed JSON are
modelled by a small JSON value type; anything else (syntactically
malformed text) is `FileContent.malformed`. `serde_json` serialization of
a `Note` is modelled field by field: `to_string_pretty` produces the
five-field object, and `from_str::<Note>` requires the five fields with
their types, ignoring unknown fields (serde's default).
-/

/-- A JSON value, as far as the note files need. -/
inductive Json where
  | null : Json
  | bool (b : Bool) : Json
  | num (n : Int) : Json
  | str (s : String) : Json
  | arr (elems : List Json) : Json
  | obj (fields : List (String × Json)) : Json
deriving Repr

/-- Look up a field of a JSON object (first occurrence wins). -/
def getField (fields : List (String × Json)) (key : String) : Option Json :=
  (fields.find? (fun f => f.1 == key)).map (fun f => f.2)

/-- Extract a JSON string. -/
def Json.asStr : Json → Option String
  | .str s => some s
  | _ => none

/-- Extract a JSON number as a timestamp. -/
def Json.asNum : Json → Option Int
  | .num n => some n
  | _ => none

/-- Serialization of a `Note` (serde `Serialize`): the JSON object with
the five fields in declaration order. -/
def noteToJson (n : Note) : Json :=
  .obj [("id", .str n.id), ("title", .str n.title), ("content", .str n.content),
        ("created_at", .num n.created_at), ("updated_at", .num n.updated_at)]

/-- Deserialization of a `Note` (serde `Deserialize`): an object with the
five required fields of the right types; other shapes fail. -/
def noteFromJson (j : Json) : Option Note :=
  match j with
  | .obj fields =>
    (getField fields "id" |>.bind Json.asStr).bind fun id =>
    (getField fields "title" |>.bind Json.asStr).bind fun title =>
    (getField fields "content" |>.bind Json.asStr).bind fun content =>
    (getField fields "created_at" |>.bind Json.asNum).bind fun created_at =>
    (getField fields "updated_at" |>.bind Json.asNum).bind fun updated_at =>
    some { id := id, title := title, content := content,
           created_at := created_at, updated_at := updated_at }
  | _ => none

/-- The text stored in one file: either well-formed JSON or malformed
text that `serde_json` cannot parse at all. -/
inductive FileContent where
  | json (j : Json) : FileContent
  | malformed (raw : String) : FileContent
deriving Repr

/-- `serde_json::from_str::<Note>` on a file's content: fails on
malformed text and on JSON of the wrong shape. -/
def parseNoteFile : FileContent → Option Note
  | .json j => noteFromJson j
  | .malformed _ => none

/-- One entry of the data directory. -/
structure FileEntry where
  name : String
  content : FileContent
  readable : Bool
deriving Repr

/-- The data directory: the list of its entries, in `read_dir` order. -/
abbrev Dir := List FileEntry

/-- File name used by `save_note`/`delete_note`: `{note_id}.json`. -/
def fileName (noteId : String) : String := noteId ++ ".json"

/-- `path.extension().map_or(false, |ext| ext == "json")`: the name ends
in `.json` with a nonempty stem (a bare `.json` is a dotfile without an
extension for `Path::extension`). -/
def hasJsonExt (name : String) : Bool :=
  List.isSuffixOf ".json".data name.data && decide (5 < name.data.length)

/-- `fs::write`: overwrite the entry with this name, or create it. -/
def writeFile (dir : Dir) (name : String) (c : FileContent) : Dir :=
  if dir.any (fun e => e.name == name) then
    dir.map (fun e => if e.name == name then { e with content := c, readable := true } else e)
  else
    dir ++ [{ name := name, content := c, readable := true }]

/-- `Storage::save_note`: serialize the note and write it to
`<dir>/<id>.json`. -/
def saveNote (dir : Dir) (n : Note) : Dir :=
  writeFile dir (fileName n.id) (.json (noteToJson n))

/-- Descending order on `updated_at`, the comparator
`|a, b| b.updated_at.cmp(&a.updated_at)` of `load_all_notes`. -/
def updatedDesc (a b : Note) : Prop := b.updated_at ≤ a.updated_at

instance : DecidableRel updatedDesc :=
  fun a b => inferInstanceAs (Decidable (b.updated_at ≤ a.updated_at))

instance : IsTotal Note updatedDesc :=
  ⟨fun a b => le_total b.updated_at a.updated_at⟩

instance : IsTrans Note updatedDesc :=
  ⟨fun _ _ _ h h' => le_trans h' h⟩

/-- `notes.sort_by(|a, b| b.updated_at.cmp(&a.updated_at))`. -/
def sortByUpdatedDesc (l : List Note) : List Note :=
  List.insertionSort updatedDesc l

/-- The scan loop of `load_all_notes`: walk the entries in order, skip
non-`.json` names, abort with an error (`none`) when a `.json` file is
unreadable, skip a `.json` file whose content fails to parse, and collect
the parsed notes. -/
def readNotes : Dir → Option (List Note)
  | [] => some []
  | e :: rest =>
    if hasJsonExt e.name then
      if e.readable then
        match parseNoteFile e.content with
        | some n => (readNotes rest).map (fun ns => n :: ns)
        | none => readNotes rest
      else none
    else readNotes rest

/-- `Storage::load_all_notes`: collect the parsable notes, then sort by
`updated_at` descending. -/
def loadAllNotes (dir : Dir) : Option (List Note) :=
  (readNotes dir).map sortByUpdatedDesc

/-- `Storage::delete_note`: if `<dir>/<id>.json` exists, remove it —
`removeOk` is the outcome of the `fs::remove_file` call, the one step
that can fail; an absent file is not an error. -/
def deleteNote (dir : Dir) (noteId : String) (removeOk : Bool) : Option Dir :=
  if dir.any (fun e => e.name == fileName noteId) then
    if removeOk then some (dir.filter (fun e => !(e.name == fileName noteId))) else none
  else
    some dir

example :
    loadAllNotes (saveNote [] { id := "a", title := "t", content := "c",
                                created_at := 3, updated_at := 5 })
      = some [{ id := "a", title := "t", content := "c", created_at := 3, updated_at := 5 }] := by
  decide

/-!
## Sidebar rename state machine (`views/sidebar.rs`)

The rename-relevant state of `SidebarView`: the identity being renamed
(`editing_note_id`), the draft title buffer (`rename_title`), and whether
the rename text input exists (`input_state`). The note map and the
selection play no role in `confirm_rename`/`cancel_rename` and are kept
at the controller model below.
-/

/-- Rename-mode state of `SidebarView`. -/
structure SidebarState where
  editingNoteId : Option String
  renameTitle : String
  inputActive : Bool
deriving DecidableEq, Repr

/-- `SidebarView::cancel_rename`. -/
def cancelRename (s : SidebarState) : SidebarState :=
  { s with editingNoteId := none, renameTitle := "", inputActive := false }

/-- `SidebarView::confirm_rename`: returns the new state and the payload
of the emitted `SidebarRenameNote` event, when one is emitted. -/
def confirmRename (s : SidebarState) : SidebarState × Option (String × String) :=
  match s.editingNoteId with
  | some noteId =>
    if s.renameTitle.isEmpty then
      ({ s with editingNoteId := none, renameTitle := "", inputActive := false }, none)
    else
      ({ s with editingNoteId := none, renameTitle := "", inputActive := false },
       some (noteId, s.renameTitle))
  | none => (s, none)

/-!
## Root controller (`app.rs`)

`AppView` state: the note vector, the selected identity, the editor's
displayed note (`EditorView.current_note`), and the sidebar fields the
controller pushes into (`selected_note_id`, `editing_note_id`). Disk
outcomes (`Storage::save_note`, `Storage::delete_note`) are boolean
oracle parameters; the fresh note of `create_new_note` and the clock of
`rename_note` are parameters as well.
-/

/-- The state of `AppView` together with the view state it drives. -/
structure AppState where
  notes : List Note
  selectedNoteId : Option String
  editorNote : Option Note
  sidebarSelected : Option String
  sidebarEditing : Option String
deriving DecidableEq, Repr

/-- `AppView::create_new_note`: on save failure, return with nothing
changed; on success, insert the fresh note at the front, select it, and
load it into the editor. -/
def AppState.createNewNote (st : AppState) (fresh : Note) (saveOk : Bool) : AppState :=
  if saveOk then
    { notes := fresh :: st.notes
      selectedNoteId := some fresh.id
      editorNote := some fresh
      sidebarSelected := some fresh.id
      sidebarEditing := st.sidebarEditing }
  else st

/-- `AppView::delete_note`: on disk-delete failure, return with nothing
changed; on success, drop the note from the vector and clear the sidebar
selection, the sidebar rename mode, the editor, and the app selection. -/
def AppState.deleteNote (st : AppState) (noteId : String) (deleteOk : Bool) : AppState :=
  if deleteOk then
    { notes := st.notes.filter (fun n => !(n.id == noteId))
      selectedNoteId := none
      editorNote := none
      sidebarSelected := none
      sidebarEditing := none }
  else st

/-- `iter_mut().find(...)` then the field updates of `rename_note`:
retitle the first note with the given identity and refresh its
`updated_at`. -/
def retitleFirst (noteId newTitle : String) (now : Timestamp) : List Note → List Note
  | [] => []
  | n :: ns =>
    if n.id == noteId then { n with title := newTitle, updated_at := now } :: ns
    else n :: retitleFirst noteId newTitle now ns

/-- `AppView::rename_note`: absent identity is a no-op; on save failure
the cloned vector is dropped, leaving all state unchanged; on success the
vector is replaced, rename mode is cleared, and the editor is refreshed
when the renamed note is the selected one. -/
def AppState.renameNote (st : AppState) (noteId newTitle : String) (now : Timestamp)
    (saveOk : Bool) : AppState :=
  if st.notes.any (fun n => n.id == noteId) then
    if saveOk then
      let notes := retitleFirst noteId newTitle now st.notes
      { notes := notes
        selectedNoteId := st.selectedNoteId
        editorNote :=
          if st.selectedNoteId == some noteId then
            match notes.find? (fun n => n.id == noteId) with
            | some m => some m
            | none => st.editorNote
          else st.editorNote
        sidebarSelected := st.sidebarSelected
        sidebarEditing := none }
    else st
  else st

/-- `AppView::select_note`: absent identity is a no-op; otherwise load
the note into the editor and set both selections. -/
def AppState.selectNote (st : AppState) (noteId : String) : AppState :=
  match st.notes.find? (fun n => n.id == noteId) with
  | some n =>
    { st with editorNote := some n
              sidebarSelected := some noteId
              selectedNoteId := some noteId }
  | none => st

/-- Startup state of `AppView::new` after `load_all_notes` returned
`notes`: the first loaded note, when there is one, becomes the selection
and is loaded into the editor. -/
def AppState.init (notes : List Note) : AppState :=
  match notes.head? with
  | some first =>
    match notes.find? (fun n => n.id == first.id) with
    | some n =>
      { notes := notes, selectedNoteId := some first.id, editorNote := some n
        sidebarSelected := some first.id, sidebarEditing := none }
    | none =>
      { notes := notes, selectedNoteId := some first.id, editorNote := none
        sidebarSelected := none, sidebarEditing := none }
  | none =>
    { notes := notes, selectedNoteId := none, editorNote := none
      sidebarSelected := none, sidebarEditing := none }

/-- A sidebar intent as handled by the controller, with the
nondeterministic inputs of its handler attached. -/
inductive Intent where
  | create (fresh : Note) (saveOk : Bool) : Intent
  | delete (noteId : String) (deleteOk : Bool) : Intent
  | rename (noteId newTitle : String) (now : Timestamp) (saveOk : Bool) : Intent
  | select (noteId : String) : Intent

/-- Dispatch one intent to its `AppView` handler. -/
def AppState.step (st : AppState) : Intent → AppState
  | .create fresh saveOk => st.createNewNote fresh saveOk
  | .delete noteId deleteOk => st.deleteNote noteId deleteOk
  | .rename noteId newTitle now saveOk => st.renameNote noteId newTitle now saveOk
  | .select noteId => st.selectNote noteId

/-- Run a sequence of intents from a state. -/
def AppState.run (st : AppState) (l : List Intent) : AppState :=
  l.foldl AppState.step st

/-- The selection invariant: empty, or an identity of a note in the
collection. -/
def selectionInv (st : AppState) : Prop :=
  st.selectedNoteId = none ∨ ∃ n ∈ st.notes, st.selectedNoteId = some n.id

/-!
## Claims
-/

/-- Content used to exercise `preview` at the byte/character boundary:
26 two-byte characters, hence 26 characters but 52 UTF-8 bytes. -/
def wideContent : String := "αααααααααααααααααααααααααα"

/-- C1: the claim requires `preview()` on non-empty content of at most 50
characters to return the content unchanged with no ellipsis. On the
26-character content `wideContent` (52 UTF-8 bytes) the code instead
appends the ellipsis, because the truncation test compares the byte
length (`content.len() > 50`) while the extraction takes characters
(`chars().take(50)`), contradicting the function's own documentation
("若内容被截断，添加省略号" — append the ellipsis if the content was
truncated). -/
theorem preview_ellipsis_on_untruncated_multibyte_content :
    wideContent.length ≤ 50 ∧ wideContent.isEmpty = false ∧
    ({ id := "i", title := "t", content := wideContent,
       created_at := 0, updated_at := 0 : Note }).preview = wideContent ++ "..." ∧
    wideContent ++ "..." ≠ wideContent := by
  decide

/-- C4 counterexample: the freshly constructed note's default title is
not `"Untitled"` — it is the Chinese `"新建笔记"`. -/
theorem note_new_title_not_untitled :
    (Note.new "5a9f" 0).title ≠ "Untitled" := by
  decide

/-- C4 (amended): `Note::new` returns a note carrying the generated
identity, the default title `"新建笔记"`, empty content, and
`created_at = updated_at = now`. -/
theorem note_new_fields (id : String) (now : Timestamp) :
    Note.new id now
      = { id := id, title := "新建笔记", content := "",
          created_at := now, updated_at := now } ∧
    (Note.new id now).created_at = (Note.new id now).updated_at := by
  exact ⟨rfl, rfl⟩

/-- C9 counterexample: with rename mode inactive but a stale draft in the
buffer (reachable, since the controller's delete and rename handlers call
`set_editing(None)` without clearing `rename_title`), confirming leaves
the draft buffer non-empty, against the claim that confirming always
leaves the buffer empty. -/
theorem confirm_rename_stale_buffer :
    (confirmRename { editingNoteId := none, renameTitle := "draft",
                     inputActive := false }).1.renameTitle ≠ "" := by
  decide

/-- C9 (amended): confirming emits a `Rename` intent with the editing
identity and the draft title exactly when rename mode is active and the
draft is non-empty (an empty draft is a silent cancel emitting nothing);
cancelling always clears the editing identity and empties the buffer;
confirming clears both whenever rename mode is active, and when rename
mode is inactive it emits nothing and leaves the sidebar state — any
stale draft buffer included — unchanged. -/
theorem sidebar_rename_confirm_cancel :
    (∀ s : SidebarState,
        (cancelRename s).editingNoteId = none ∧ (cancelRename s).renameTitle = "") ∧
    (∀ (s : SidebarState) (noteId title : String),
        (confirmRename s).2 = some (noteId, title) ↔
          s.editingNoteId = some noteId ∧ s.renameTitle = title ∧ title ≠ "") ∧
    (∀ (s : SidebarState) (noteId : String), s.editingNoteId = some noteId →
        (confirmRename s).1.editingNoteId = none ∧ (confirmRename s).1.renameTitle = "") ∧
    (∀ s : SidebarState, s.editingNoteId = none → confirmRename s = (s, none)) := by
  refine ⟨fun s => ⟨rfl, rfl⟩, ?_, ?_, ?_⟩
  · rintro ⟨e, t, i⟩ noteId title
    cases e with
    | none => simp [confirmRename]
    | some nid =>
      by_cases he : t = ""
      · subst he
        simp [confirmRename, String.isEmpty_iff]
        rintro - rfl
        rfl
      · have hb : t.isEmpty = false := by
          rw [← Bool.not_eq_true, String.isEmpty_iff]
          exact he
        simp only [confirmRename, hb, Bool.false_eq_true, if_false, Option.some.injEq,
          Prod.mk.injEq]
        constructor
        · rintro ⟨rfl, rfl⟩
          exact ⟨rfl, rfl, he⟩
        · rintro ⟨h1, h2, -⟩
          exact ⟨h1, h2⟩
  · rintro ⟨e, t, i⟩ noteId h
    cases h
    by_cases he : t = "" <;> cases hb : t.isEmpty <;> simp_all [confirmRename, String.isEmpty_iff]
  · rintro ⟨e, t, i⟩ h
    cases h
    simp [confirmRename]

/-- C9 witness: the amended theorem applied at a concrete active-rename
state and a concrete inactive state. -/
theorem sidebar_rename_confirm_cancel_witness :
    ((confirmRename { editingNoteId := some "a", renameTitle := "T",
                      inputActive := true }).1.editingNoteId = none ∧
     (confirmRename { editingNoteId := some "a", renameTitle := "T",
                      inputActive := true }).1.renameTitle = "") ∧
    confirmRename { editingNoteId := none, renameTitle := "",
                    inputActive := false }
      = ({ editingNoteId := none, renameTitle := "", inputActive := false }, none) :=
  ⟨sidebar_rename_confirm_cancel.2.2.1
      { editingNoteId := some "a", renameTitle := "T", inputActive := true } "a" rfl,
   sidebar_rename_confirm_cancel.2.2.2
      { editingNoteId := none, renameTitle := "", inputActive := false } rfl⟩

/-- Two fixed notes used as concrete inputs. -/
def noteA : Note :=
  { id := "a", title := "A", content := "", created_at := 0, updated_at := 0 }

/-- Second fixed note. -/
def noteB : Note :=
  { id := "b", title := "B", content := "", created_at := 1, updated_at := 1 }

/-- A concrete controller state with two notes and note `"a"` selected
and displayed. -/
def twoNoteState : AppState :=
  { notes := [noteA, noteB], selectedNoteId := some "a", editorNote := some noteA,
    sidebarSelected := some "a", sidebarEditing := none }

/-- C2 counterexample: in `twoNoteState`, the identity `"b"` is present
in the collection and is not the selected identity, and the disk delete
succeeds, yet handling Delete("b") does not leave the selection
unchanged — the handler clears it. -/
theorem delete_nonselected_clears_selection :
    ((twoNoteState.notes.any (fun n => n.id == "b")) = true ∧
     twoNoteState.selectedNoteId ≠ some "b") ∧
    (twoNoteState.deleteNote "b" true).selectedNoteId ≠ twoNoteState.selectedNoteId ∧
    (twoNoteState.deleteNote "b" true).editorNote ≠ twoNoteState.editorNote := by
  decide

/-- C2 (amended): handling Delete(identity) with the disk delete
succeeding removes every note with that identity from the in-memory
collection and unconditionally clears the selection, the editor display,
and any in-progress rename — also when the deleted identity was not the
selected one; in particular, deleting the currently selected identity
clears the selection and the editor display. -/
theorem delete_note_removes_and_clears (st : AppState) (noteId : String) :
    st.deleteNote noteId true
      = { notes := st.notes.filter (fun n => !(n.id == noteId))
          selectedNoteId := none
          editorNote := none
          sidebarSelected := none
          sidebarEditing := none } := by
  rfl

/-- C3: when the disk write fails while handling Create or Rename, the
handler aborts with the whole controller state — collection, selection,
editor display, sidebar state — unchanged. -/
theorem create_rename_save_failure_is_noop :
    (∀ (st : AppState) (fresh : Note), st.createNewNote fresh false = st) ∧
    (∀ (st : AppState) (noteId newTitle : String) (now : Timestamp),
        st.renameNote noteId newTitle now false = st) := by
  constructor
  · intro st fresh
    simp [AppState.createNewNote]
  · intro st noteId newTitle now
    unfold AppState.renameNote
    cases st.notes.any (fun n => n.id == noteId) <;> simp

/-- Retitling a note in place never changes the identities in the
vector. -/
theorem retitleFirst_map_id (noteId newTitle : String) (now : Timestamp) :
    ∀ l : List Note, (retitleFirst noteId newTitle now l).map Note.id = l.map Note.id
  | [] => rfl
  | n :: ns => by
    by_cases h : (n.id == noteId) = true <;>
      simp [retitleFirst, h, retitleFirst_map_id noteId newTitle now ns]

/-- Each intent handler preserves the selection invariant. -/
theorem selectionInv_step (st : AppState) (it : Intent) (h : selectionInv st) :
    selectionInv (st.step it) := by
  cases it with
  | create fresh saveOk =>
    cases saveOk
    · simpa [AppState.step, AppState.createNewNote] using h
    · exact Or.inr ⟨fresh, List.mem_cons_self _ _, rfl⟩
  | delete noteId deleteOk =>
    cases deleteOk
    · simpa [AppState.step, AppState.deleteNote] using h
    · exact Or.inl rfl
  | rename noteId newTitle now saveOk =>
    show selectionInv (st.renameNote noteId newTitle now saveOk)
    unfold AppState.renameNote
    cases hA : st.notes.any (fun n => n.id == noteId)
    · simpa using h
    · cases saveOk
      · simpa using h
      · simp only [if_true, eq_self_iff_true]
        rcases h with hnone | ⟨n, hmem, hsel⟩
        · exact Or.inl hnone
        · right
          have hid : n.id ∈ (retitleFirst noteId newTitle now st.notes).map Note.id := by
            rw [retitleFirst_map_id]
            exact List.mem_map.mpr ⟨n, hmem, rfl⟩
          obtain ⟨m, hm, hmid⟩ := List.mem_map.mp hid
          exact ⟨m, hm, by rw [hsel, hmid]⟩
  | select noteId =>
    show selectionInv (st.selectNote noteId)
    unfold AppState.selectNote
    cases hF : st.notes.find? (fun n => n.id == noteId) with
    | none => simpa using h
    | some n =>
      right
      refine ⟨n, List.mem_of_find?_eq_some hF, ?_⟩
      have hid : n.id = noteId := by simpa using List.find?_some hF
      simp [hid]

/-- The startup state satisfies the selection invariant. -/
theorem selectionInv_init (notes : List Note) : selectionInv (AppState.init notes) := by
  cases notes with
  | nil => exact Or.inl rfl
  | cons a as =>
    unfold AppState.init
    simp only [List.head?_cons]
    cases hF : (a :: as).find? (fun n => n.id == a.id) with
    | none => simp only [hF]; exact Or.inr ⟨a, List.mem_cons_self _ _, rfl⟩
    | some n => simp only [hF]; exact Or.inr ⟨a, List.mem_cons_self _ _, rfl⟩

/-- Running intents preserves the selection invariant. -/
theorem selectionInv_run (st : AppState) (h : selectionInv st) :
    ∀ l : List Intent, selectionInv (st.run l)
  | [] => h
  | it :: l => selectionInv_run (st.step it) (selectionInv_step st it h) l

/-- C5: in every controller state reachable from startup by Create,
Select, Delete and Rename intents, the selection is empty or an identity
present in the collection; deleting with a successful disk delete always
clears the selection (so in particular deleting the selected note does),
and selecting an absent identity is a strict no-op. -/
theorem controller_selection_invariant :
    (∀ (startNotes : List Note) (l : List Intent),
        selectionInv ((AppState.init startNotes).run l)) ∧
    (∀ (st : AppState) (noteId : String),
        (st.step (.delete noteId true)).selectedNoteId = none) ∧
    (∀ (st : AppState) (noteId : String),
        st.notes.find? (fun n => n.id == noteId) = none →
          st.step (.select noteId) = st) := by
  refine ⟨?_, ?_, ?_⟩
  · intro startNotes l
    exact selectionInv_run _ (selectionInv_init startNotes) l
  · intro st noteId
    rfl
  · intro st noteId h
    show st.selectNote noteId = st
    unfold AppState.selectNote
    rw [h]

/-- C5 witness: the invariant after a concrete intent sequence, and the
no-op select applied at a concrete state with an absent identity. -/
theorem controller_selection_invariant_witness :
    selectionInv ((AppState.init [noteA]).run
      [.create noteB true, .delete "b" true, .select "a"]) ∧
    AppState.step twoNoteState (.select "zzz") = twoNoteState :=
  ⟨controller_selection_invariant.1 [noteA]
      [.create noteB true, .delete "b" true, .select "a"],
   controller_selection_invariant.2.2 twoNoteState "zzz" (by decide)⟩

/-- Deserializing a serialized note restores every field. -/
theorem noteFromJson_noteToJson (n : Note) : noteFromJson (noteToJson n) = some n := rfl

/-- In a directory whose `.json` entries are all readable, the scan of
`load_all_notes` succeeds. -/
theorem readNotes_isSome :
    ∀ dir : Dir, (∀ e ∈ dir, hasJsonExt e.name = true → e.readable = true) →
      ∃ ns, readNotes dir = some ns
  | [], _ => ⟨[], rfl⟩
  | e :: rest, h => by
    obtain ⟨ns, hns⟩ :=
      readNotes_isSome rest (fun x hx => h x (List.mem_cons_of_mem _ hx))
    cases hj : hasJsonExt e.name with
    | false => exact ⟨ns, by simp [readNotes, hj, hns]⟩
    | true =>
      have hr : e.readable = true := h e (List.mem_cons_self _ _) hj
      cases hp : parseNoteFile e.content with
      | none => exact ⟨ns, by simp [readNotes, hj, hr, hp, hns]⟩
      | some m => exact ⟨m :: ns, by simp [readNotes, hj, hr, hp, hns]⟩

/-- A readable `.json` entry that parses contributes its note to a
successful scan. -/
theorem readNotes_mem :
    ∀ (dir : Dir) (ns : List Note), readNotes dir = some ns →
      ∀ e ∈ dir, hasJsonExt e.name = true → e.readable = true →
        ∀ m, parseNoteFile e.content = some m → m ∈ ns := by
  intro dir
  induction dir with
  | nil => intro ns _ e he; cases he
  | cons x rest ih =>
    intro ns hns e he hj hr m hm
    rcases List.mem_cons.mp he with rfl | he
    · rw [readNotes, if_pos hj, if_pos hr, hm] at hns
      cases hrest : readNotes rest with
      | none => rw [hrest] at hns; cases hns
      | some ns' =>
        rw [hrest] at hns
        cases hns
        exact List.mem_cons_self _ _
    · rw [readNotes] at hns
      by_cases hjx : hasJsonExt x.name = true
      · rw [if_pos hjx] at hns
        by_cases hrx : x.readable = true
        · rw [if_pos hrx] at hns
          cases hpx : parseNoteFile x.content with
          | none =>
            rw [hpx] at hns
            exact ih ns hns e he hj hr m hm
          | some k =>
            rw [hpx] at hns
            cases hrest : readNotes rest with
            | none => rw [hrest] at hns; cases hns
            | some ns' =>
              rw [hrest] at hns
              cases hns
              exact List.mem_cons_of_mem _ (ih ns' hrest e he hj hr m hm)
        · rw [if_neg hrx] at hns; cases hns
      · rw [if_neg hjx] at hns
        exact ih ns hns e he hj hr m hm

/-- After `fs::write`, some entry carries the written name and content,
and is readable. -/
theorem writeFile_mem (dir : Dir) (name : String) (c : FileContent) :
    ∃ e ∈ writeFile dir name c, e.name = name ∧ e.content = c ∧ e.readable = true := by
  unfold writeFile
  cases hA : dir.any (fun e => e.name == name) with
  | true =>
    obtain ⟨x, hx, hxn⟩ := List.any_eq_true.mp hA
    refine ⟨{ x with content := c, readable := true }, ?_, ?_, rfl, rfl⟩
    · simp only [if_pos]
      exact List.mem_map.mpr ⟨x, hx, by rw [if_pos hxn]⟩
    · exact eq_of_beq hxn
  | false =>
    exact ⟨{ name := name, content := c, readable := true },
      List.mem_append_right _ (List.mem_cons_self _ _), rfl, rfl, rfl⟩

/-- `fs::write` preserves "every `.json` entry is readable" (the written
entry itself is readable). -/
theorem writeFile_readable (dir : Dir) (name : String) (c : FileContent)
    (h : ∀ e ∈ dir, hasJsonExt e.name = true → e.readable = true) :
    ∀ e ∈ writeFile dir name c, hasJsonExt e.name = true → e.readable = true := by
  unfold writeFile
  cases hA : dir.any (fun e => e.name == name) with
  | true =>
    intro e he hj
    simp only [if_pos] at he
    obtain ⟨x, hx, hxe⟩ := List.mem_map.mp he
    by_cases hxn : (x.name == name) = true
    · rw [if_pos hxn] at hxe
      rw [← hxe]
    · rw [if_neg hxn] at hxe
      exact hxe ▸ h x hx (hxe ▸ hj)
  | false =>
    intro e he hj
    rcases List.mem_append.mp he with he | he
    · exact h e he hj
    · rw [List.mem_singleton.mp he]

/-- C6: for every note and every data directory whose `.json` files are
readable (and an identity giving a well-formed `<id>.json` file name),
saving the note and then loading all notes succeeds and yields a note
equal to it in every field. -/
theorem save_then_load_roundtrip (dir : Dir) (n : Note)
    (hread : ∀ e ∈ dir, hasJsonExt e.name = true → e.readable = true)
    (hname : hasJsonExt (fileName n.id) = true) :
    ∃ notes, loadAllNotes (saveNote dir n) = some notes ∧ n ∈ notes := by
  obtain ⟨e, he, hen, hec, her⟩ := writeFile_mem dir (fileName n.id) (.json (noteToJson n))
  have hread' := writeFile_readable dir (fileName n.id) (.json (noteToJson n)) hread
  obtain ⟨ns, hns⟩ := readNotes_isSome _ hread'
  have hj : hasJsonExt e.name = true := by rw [hen]; exact hname
  have hparse : parseNoteFile e.content = some n := by
    rw [hec]; exact noteFromJson_noteToJson n
  have hmem : n ∈ ns := readNotes_mem _ ns hns e he hj (hread' e he hj) n hparse
  refine ⟨sortByUpdatedDesc ns, ?_, ?_⟩
  · unfold loadAllNotes saveNote
    rw [hns]
    rfl
  · exact ((List.perm_insertionSort updatedDesc ns).mem_iff).mpr hmem

/-- C6 witness: the round trip through an empty directory at a concrete
note. -/
theorem save_then_load_roundtrip_witness :
    ∃ notes, loadAllNotes (saveNote [] noteA) = some notes ∧ noteA ∈ notes :=
  save_then_load_roundtrip [] noteA
    (fun e he => absurd he (List.not_mem_nil e)) (by decide)

/-- C7: a directory holding one valid note file and one malformed file,
both readable, loads to exactly the one parsed note — in either directory
order — and does not fail. -/
theorem load_skips_malformed_file (n : Note) (name1 name2 raw : String)
    (h1 : hasJsonExt name1 = true) (h2 : hasJsonExt name2 = true) :
    loadAllNotes [{ name := name1, content := .json (noteToJson n), readable := true },
                  { name := name2, content := .malformed raw, readable := true }]
        = some [n] ∧
    loadAllNotes [{ name := name2, content := .malformed raw, readable := true },
                  { name := name1, content := .json (noteToJson n), readable := true }]
        = some [n] := by
  constructor <;>
    simp [loadAllNotes, readNotes, h1, h2, parseNoteFile, noteFromJson_noteToJson,
      sortByUpdatedDesc]

/-- C7 witness: the two-file directory at concrete names and content. -/
theorem load_skips_malformed_file_witness :
    loadAllNotes [{ name := "a.json", content := .json (noteToJson noteA), readable := true },
                  { name := "bad.json", content := .malformed "not json", readable := true }]
        = some [noteA] ∧
    loadAllNotes [{ name := "bad.json", content := .malformed "not json", readable := true },
                  { name := "a.json", content := .json (noteToJson noteA), readable := true }]
        = some [noteA] :=
  load_skips_malformed_file noteA "a.json" "bad.json" "not json" (by decide) (by decide)

/-- C8: `delete_note` on an absent file succeeds whatever the I/O oracle
says (so a delete of a never-existing identity, or a second delete in a
row, never fails), and a failure can only come from an actual
`remove_file` error on a present file. -/
theorem delete_note_idempotent :
    (∀ (dir : Dir) (noteId : String) (removeOk : Bool),
        dir.any (fun e => e.name == fileName noteId) = false →
          deleteNote dir noteId removeOk = some dir) ∧
    (∀ (dir : Dir) (noteId : String) (ok1 ok2 : Bool) (dirAfter : Dir),
        deleteNote dir noteId ok1 = some dirAfter →
          deleteNote dirAfter noteId ok2 = some dirAfter) ∧
    (∀ (dir : Dir) (noteId : String) (removeOk : Bool),
        deleteNote dir noteId removeOk = none →
          dir.any (fun e => e.name == fileName noteId) = true ∧ removeOk = false) := by
  refine ⟨?_, ?_, ?_⟩
  · intro dir noteId removeOk h
    unfold deleteNote
    rw [h]
    rfl
  · intro dir noteId ok1 ok2 dirAfter h
    unfold deleteNote at h ⊢
    cases hA : dir.any (fun e => e.name == fileName noteId) with
    | false =>
      rw [hA] at h
      simp only [Bool.false_eq_true, if_false, Option.some.injEq] at h
      subst h
      rw [hA]
      rfl
    | true =>
      rw [hA] at h
      cases ok1
      · simp at h
      · simp only [if_true, Option.some.injEq] at h
        subst h
        have hnone :
            (dir.filter (fun e => !(e.name == fileName noteId))).any
              (fun e => e.name == fileName noteId) = false := by
          rw [List.any_eq_false]
          intro x hx
          have hxf := (List.mem_filter.mp hx).2
          simpa using hxf
        rw [hnone]
        rfl
  · intro dir noteId removeOk h
    unfold deleteNote at h
    cases hA : dir.any (fun e => e.name == fileName noteId) with
    | false =>
      rw [hA] at h
      simp at h
    | true =>
      rw [hA] at h
      cases removeOk
      · exact ⟨rfl, rfl⟩
      · simp at h

/-- Concrete one-file directory for the C8 witness. -/
def dirWithA : Dir := [{ name := "a.json", content := .malformed "x", readable := true }]

/-- C8 witness: the three conclusions applied at concrete directories,
identities and oracle values. -/
theorem delete_note_idempotent_witness :
    deleteNote [] "x" false = some [] ∧
    deleteNote [] "a" false = some [] ∧
    (dirWithA.any (fun e => e.name == fileName "a") = true ∧ false = false) :=
  ⟨delete_note_idempotent.1 [] "x" false (by decide),
   delete_note_idempotent.2.1 dirWithA "a" true false [] rfl,
   delete_note_idempotent.2.2 dirWithA "a" false rfl⟩

/-- C10: whenever `load_all_notes` succeeds, the returned list is sorted
by `updated_at` in descending order — the sort runs on every successful
call. -/
theorem load_all_notes_sorted (dir : Dir) (notes : List Note)
    (h : loadAllNotes dir = some notes) :
    List.Sorted updatedDesc notes := by
  unfold loadAllNotes at h
  cases hr : readNotes dir with
  | none => rw [hr] at h; cases h
  | some ns =>
    rw [hr] at h
    have h' : some (sortByUpdatedDesc ns) = some notes := h
    cases h'
    exact List.sorted_insertionSort updatedDesc ns

/-- C10 witness: sortedness of a successful load of a concrete two-file
directory. -/
theorem load_all_notes_sorted_witness :
    List.Sorted updatedDesc [noteB, noteA] :=
  load_all_notes_sorted
    [{ name := "a.json", content := .json (noteToJson noteA), readable := true },
     { name := "b.json", content := .json (noteToJson noteB), readable := true }]
    [noteB, noteA] (by decide)
